import Mathlib

/-!
Shallow embedding of `src/core/src/ast.rs` (redscript core AST layer).

Rust strings (`&'static str`, `Ref<str>`) are modelled as `List Char`
(`Str`); Rust's byte-lexicographic order on valid UTF-8 strings agrees
with lexicographic order on their scalar values, so character-wise
lexicographic comparison is a faithful model of `str::cmp`.
Machine integers (`u32` positions, `u16` target indices) are modelled as
`Nat`: the embedded operations use only ordering and equality on them,
never wrapping arithmetic. Rust panics (`unwrap`, out-of-bounds
indexing) are modelled by `Option` with `none` standing for the panic.
-/

namespace Redscript

abbrev Str := List Char

/-- `enum Ident { Static(&'static str), Owned(Ref<str>) }`. -/
inductive Ident where
  | Static (s : Str)
  | Owned (s : Str)
deriving DecidableEq, Repr

/-- `impl AsRef<str> for Ident`: both variants expose their text. -/
def Ident.as_ref : Ident → Str
  | .Static s => s
  | .Owned s => s

/-- `impl PartialEq for Ident`: `self.as_ref() == other.as_ref()`. -/
def Ident.eq (a b : Ident) : Bool :=
  a.as_ref == b.as_ref

/-- `impl Hash for Ident`: the data fed to the hasher is
`self.as_ref()`, so the hash is a function of this value alone. -/
def Ident.hashInput (i : Ident) : Str :=
  i.as_ref

/-- `impl Display for Ident`: both variants write their text. -/
def Ident.fmt : Ident → Str
  | .Static s => s
  | .Owned s => s

/-- Lexicographic comparison of strings, modelling `str::cmp`. -/
def cmpStr : Str → Str → Ordering
  | [], [] => .eq
  | [], _ :: _ => .lt
  | _ :: _, [] => .gt
  | a :: xs, b :: ys =>
    match compare a b with
    | .eq => cmpStr xs ys
    | o => o

/-- `#[derive(PartialOrd, Ord)]` on `Ident`: the derived `cmp` compares
the variant discriminant first (`Static` is declared before `Owned`),
and only compares the carried strings when the variants agree. -/
def Ident.cmp (a b : Ident) : Ordering :=
  match a, b with
  | .Static x, .Static y => cmpStr x y
  | .Static _, .Owned _ => .lt
  | .Owned _, .Static _ => .gt
  | .Owned x, .Owned y => cmpStr x y

/-- `enum BinOp` (22 operators). -/
inductive BinOp where
  | AssignAdd
  | AssignSubtract
  | AssignMultiply
  | AssignDivide
  | AssignOr
  | AssignAnd
  | LogicOr
  | LogicAnd
  | Or
  | Xor
  | And
  | Equal
  | NotEqual
  | Less
  | LessEqual
  | Greater
  | GreaterEqual
  | Add
  | Subtract
  | Multiply
  | Divide
  | Modulo
deriving DecidableEq, Fintype, Repr

/-- `BinOp::precedence`. -/
def BinOp.precedence : BinOp → Nat
  | .AssignAdd => 10
  | .AssignSubtract => 10
  | .AssignMultiply => 10
  | .AssignDivide => 10
  | .AssignOr => 10
  | .AssignAnd => 10
  | .LogicOr => 9
  | .LogicAnd => 8
  | .Or => 7
  | .Xor => 6
  | .And => 5
  | .Equal => 4
  | .NotEqual => 4
  | .Less => 3
  | .LessEqual => 3
  | .Greater => 3
  | .GreaterEqual => 3
  | .Add => 2
  | .Subtract => 2
  | .Multiply => 1
  | .Divide => 1
  | .Modulo => 1

/-- `BinOp::associative`. -/
def BinOp.associative : BinOp → Bool
  | .AssignAdd => false
  | .AssignSubtract => false
  | .AssignMultiply => false
  | .AssignDivide => false
  | .AssignOr => false
  | .AssignAnd => false
  | .LogicOr => true
  | .LogicAnd => true
  | .Or => true
  | .Xor => true
  | .And => true
  | .Equal => false
  | .NotEqual => false
  | .Less => false
  | .LessEqual => false
  | .Greater => false
  | .GreaterEqual => false
  | .Add => true
  | .Subtract => true
  | .Multiply => true
  | .Divide => false
  | .Modulo => false

/-- `BinOp::does_associate`. -/
def BinOp.does_associate (self parent : BinOp) : Bool :=
  parent.precedence > self.precedence ||
    (parent.precedence == self.precedence && parent.associative)

/-- `enum UnOp`. -/
inductive UnOp where
  | BitNot
  | LogicNot
  | Neg
deriving DecidableEq, Repr

/-- `Pos(u32)`: only ordering and equality are used by the embedded
operations, so `Nat` is a faithful model. -/
abbrev Pos := Nat

/-- `struct Span { low: Pos, high: Pos }`. -/
structure Span where
  low : Pos
  high : Pos
deriving DecidableEq, Repr

/-- `Span::merge`. -/
def Span.merge (a b : Span) : Span :=
  Span.mk (min a.low b.low) (max a.high b.high)

/-- `Span::contains`. -/
def Span.contains (s : Span) (pos : Pos) : Bool :=
  s.low ≤ pos && s.high > pos

/-- `struct Target { position: u16, resolved: bool }`. -/
structure Target where
  position : Nat
  resolved : Bool
deriving DecidableEq, Repr

/-- `enum Literal`. -/
inductive Literal where
  | String
  | Name
  | Resource
  | TweakDbId
deriving DecidableEq, Repr

/-- `enum Constant`. The float payloads are carried opaquely (nothing in
this layer inspects them), modelled by their bit patterns. -/
inductive Constant where
  | String (lit : Literal) (s : Str)
  | F32 (bits : Nat)
  | F64 (bits : Nat)
  | I32 (v : Int)
  | I64 (v : Int)
  | U32 (v : Nat)
  | U64 (v : Nat)
  | Bool (b : Bool)
deriving DecidableEq, Repr

/-- `enum Kind`. -/
inductive Kind where
  | Prim
  | Ref
  | WRef
  | ScriptRef
  | Array
deriving DecidableEq, Repr

/-- `struct TypeName { name: Ident, arguments: Vec<TypeName> }`. -/
inductive TypeName where
  | mk (name : Ident) (arguments : List TypeName)

/-- Field accessor for `TypeName.name`. -/
def TypeName.name : TypeName → Ident
  | .mk n _ => n

/-- Field accessor for `TypeName.arguments`. -/
def TypeName.arguments : TypeName → List TypeName
  | .mk _ args => args

/-- `TypeName::basic`. -/
def TypeName.basic (s : Str) : TypeName :=
  .mk (.Static s) []

/-- `TypeName::basic_owned`. -/
def TypeName.basic_owned (s : Str) : TypeName :=
  .mk (.Owned s) []

/-- `TypeName::INT32`. -/
def TypeName.INT32 : TypeName := TypeName.basic "Int32".toList

/-- `TypeName::STRING`. -/
def TypeName.STRING : TypeName := TypeName.basic "String".toList

/-- `TypeName::kind`: classify by the base name's text. -/
def TypeName.kind (t : TypeName) : Kind :=
  if t.name.as_ref = "ref".toList then .Ref
  else if t.name.as_ref = "wref".toList then .WRef
  else if t.name.as_ref = "script_ref".toList then .ScriptRef
  else if t.name.as_ref = "array".toList then .Array
  else .Prim

mutual

/-- `#[derive(PartialEq)]` on `TypeName`: fields compared in order, with
`Ident`'s manual content-based equality for the name. -/
def TypeName.eqTN : TypeName → TypeName → Bool
  | .mk n1 a1, .mk n2 a2 => Ident.eq n1 n2 && TypeName.eqArgs a1 a2

def TypeName.eqArgs : List TypeName → List TypeName → Bool
  | [], [] => true
  | t :: ts, u :: us => TypeName.eqTN t u && TypeName.eqArgs ts us
  | _, _ => false

end

/-- `Itertools::join(sep)` / `format(sep)`: concatenate segments with a
single separator character between consecutive segments. -/
def joinSep (sep : Char) : List Str → Str
  | [] => []
  | [s] => s
  | s :: rest => s ++ sep :: joinSep sep rest

mutual

/-- `TypeName::mangled`, with `unwrapped()` inlined into the recursion:
`unwrapped` maps a `ref`/`wref` type to `arguments[0].unwrapped()`
(panicking — `none` — when there is no argument) and any other type to
itself, and `mangled` renders the unwrapped type, mapping `mangled` over
its arguments and joining with `,`; so on a `ref`/`wref` node `mangled`
equals `mangled` of the first argument, and on any other node it renders
the node itself. -/
def TypeName.mangled : TypeName → Option Str
  | .mk n args =>
    match (TypeName.mk n args).kind with
    | .Ref | .WRef =>
      match args with
      | [] => none
      | a :: _ => TypeName.mangled a
    | _ =>
      match args with
      | [] => some n.as_ref
      | _ :: _ =>
        match TypeName.mangledArgs args with
        | none => none
        | some ms => some (n.as_ref ++ '<' :: (joinSep ',' ms ++ ['>']))

def TypeName.mangledArgs : List TypeName → Option (List Str)
  | [] => some []
  | t :: ts =>
    match TypeName.mangled t, TypeName.mangledArgs ts with
    | some m, some ms => some (m :: ms)
    | _, _ => none

end

mutual

/-- `TypeName::repr`: bare name when there are no arguments, otherwise
the name and each argument's `repr`, joined with `:`. -/
def TypeName.repr : TypeName → Str
  | .mk n args =>
    match args with
    | [] => n.as_ref
    | _ :: _ => joinSep ':' (n.as_ref :: TypeName.reprArgs args)

def TypeName.reprArgs : List TypeName → List Str
  | [] => []
  | t :: ts => TypeName.repr t :: TypeName.reprArgs ts

end

/-- Rust's `str::split(':')`: always yields at least one (possibly
empty) segment; a separator at either end or doubled yields empty
segments. -/
def splitOnColon : Str → List Str
  | [] => [[]]
  | c :: rest =>
    if c = ':' then [] :: splitOnColon rest
    else
      match splitOnColon rest with
      | [] => [[c]]
      | s :: ss => (c :: s) :: ss

/-- `TypeName::from_parts`: fold the remaining segments into a
right-nested chain of single-argument types. -/
def TypeName.from_parts : Str → List Str → Option TypeName
  | n, [] => some (TypeName.basic_owned n)
  | n, tail :: rest =>
    match TypeName.from_parts tail rest with
    | none => none
    | some arg => some (.mk (.Owned n) [arg])

/-- `TypeName::from_repr`: split on `:` and rebuild. The two `unwrap`
calls of the source are modelled by the `none` outcomes. -/
def TypeName.from_repr (s : Str) : Option TypeName :=
  match splitOnColon s with
  | [] => none
  | n :: rest => TypeName.from_parts n rest

/-- One `ref`/`wref` wrapping layer around a type (`true` picks `ref`,
`false` picks `wref`), always with exactly one type argument. -/
def wrapLayer (b : Bool) (t : TypeName) : TypeName :=
  TypeName.mk (.Static (if b then "ref".toList else "wref".toList)) [t]

/-- Any finite stack of `ref`/`wref` wrapping layers. -/
def wrapLayers : List Bool → TypeName → TypeName
  | [], t => t
  | b :: bs, t => wrapLayer b (wrapLayers bs t)

/-- Every nesting level of the type has at most one type argument. -/
def TypeName.linear : TypeName → Bool
  | .mk _ [] => true
  | .mk _ [a] => TypeName.linear a
  | .mk _ (_ :: _ :: _) => false

mutual

/-- No name at any nesting level contains a `:` character. -/
def TypeName.noColon : TypeName → Bool
  | .mk n args => !(n.as_ref.contains ':') && TypeName.noColonArgs args

/-- `noColon` over an argument list. -/
def TypeName.noColonArgs : List TypeName → Bool
  | [] => true
  | t :: ts => TypeName.noColon t && TypeName.noColonArgs ts

end

/-- `enum Expr<Name: NameKind>`: the phase-polymorphic expression tree.
The six associated payload types of the `NameKind` trait become six type
parameters `R C L F M T` (Reference, Callable, Local, Function, Member,
Type). `Seq<N>` is a struct holding only `exprs: Vec<Expr<N>>` and is
modelled by that list; `SwitchCase<N>` holds a matcher and a body
sequence and is modelled by the pair. Constructor order and payloads
follow the source. -/
inductive Expr (R C L F M T : Type) : Type where
  | ident : R → Span → Expr R C L F M T
  | constant : Constant → Span → Expr R C L F M T
  | arrayLit : List (Expr R C L F M T) → Option T → Span → Expr R C L F M T
  | interpolatedString : Str → List (Expr R C L F M T × Str) → Span → Expr R C L F M T
  | declare : L → Option T → Option (Expr R C L F M T) → Span → Expr R C L F M T
  | cast : T → Expr R C L F M T → Span → Expr R C L F M T
  | assign : Expr R C L F M T → Expr R C L F M T → Span → Expr R C L F M T
  | call : C → List T → List (Expr R C L F M T) → Span → Expr R C L F M T
  | methodCall : Expr R C L F M T → F → List (Expr R C L F M T) → Span → Expr R C L F M T
  | member : Expr R C L F M T → M → Span → Expr R C L F M T
  | arrayElem : Expr R C L F M T → Expr R C L F M T → Span → Expr R C L F M T
  | new : T → List (Expr R C L F M T) → Span → Expr R C L F M T
  | ret : Option (Expr R C L F M T) → Span → Expr R C L F M T
  | seq : List (Expr R C L F M T) → Expr R C L F M T
  | switch : Expr R C L F M T → List (Expr R C L F M T × List (Expr R C L F M T)) →
      Option (List (Expr R C L F M T)) → Span → Expr R C L F M T
  | goto : Target → Span → Expr R C L F M T
  | ifE : Expr R C L F M T → List (Expr R C L F M T) → Option (List (Expr R C L F M T)) →
      Span → Expr R C L F M T
  | conditional : Expr R C L F M T → Expr R C L F M T → Expr R C L F M T → Span →
      Expr R C L F M T
  | whileE : Expr R C L F M T → List (Expr R C L F M T) → Span → Expr R C L F M T
  | forIn : L → Expr R C L F M T → List (Expr R C L F M T) → Span → Expr R C L F M T
  | binOp : Expr R C L F M T → Expr R C L F M T → BinOp → Span → Expr R C L F M T
  | unOp : Expr R C L F M T → UnOp → Span → Expr R C L F M T
  | this : Span → Expr R C L F M T
  | sup : Span → Expr R C L F M T
  | brk : Span → Expr R C L F M T
  | null : Span → Expr R C L F M T

variable {R C L F M T : Type}

/-- `Expr::EMPTY`: the empty sequence. -/
def Expr.EMPTY : Expr R C L F M T := .seq []

mutual

/-- `Expr::is_empty`: a `Seq` is empty iff all its elements are, a
`Goto` is empty iff its target is resolved, everything else is not. -/
def Expr.is_empty : Expr R C L F M T → Bool
  | .seq es => Expr.allEmpty es
  | .goto t _ => t.resolved
  | _ => false

/-- `seq.exprs.iter().all(|expr| expr.is_empty())`. -/
def Expr.allEmpty : List (Expr R C L F M T) → Bool
  | [] => true
  | e :: es => Expr.is_empty e && Expr.allEmpty es

end

/-- The spec's notion of a structural no-op: a `Seq` whose elements are
all (recursively) no-ops, or a `Goto` whose target is resolved. -/
inductive IsNoOp : Expr R C L F M T → Prop where
  | seq (es : List (Expr R C L F M T)) (h : ∀ e ∈ es, IsNoOp e) : IsNoOp (.seq es)
  | goto (t : Target) (s : Span) (h : t.resolved = true) : IsNoOp (.goto t s)

/-- The source-phase instantiation `SourceAst` binds all six payload
slots to `Ident` and the type slot to `TypeName`. -/
abbrev SourceExpr := Expr Ident Ident Ident Ident Ident TypeName

/-! Helper lemmas. -/

theorem splitOnColon_ne_nil (l : Str) : splitOnColon l ≠ [] := by
  cases l with
  | nil => simp [splitOnColon]
  | cons c cs =>
    simp only [splitOnColon]
    split
    · simp
    · split <;> simp

theorem splitOnColon_no_colon (l : Str) (h : ':' ∉ l) : splitOnColon l = [l] := by
  induction l with
  | nil => rfl
  | cons c cs ih =>
    have hc : ¬ (c = ':') := fun e => h (by simp [e])
    have h2 : ':' ∉ cs := fun hx => h (List.mem_cons_of_mem _ hx)
    simp only [splitOnColon, if_neg hc, ih h2]

theorem splitOnColon_append (a r : Str) (h : ':' ∉ a) :
    splitOnColon (a ++ ':' :: r) = a :: splitOnColon r := by
  induction a with
  | nil => simp [splitOnColon]
  | cons c cs ih =>
    have hc : ¬ (c = ':') := fun e => h (by simp [e])
    have h2 : ':' ∉ cs := fun hx => h (List.mem_cons_of_mem _ hx)
    show splitOnColon (c :: (cs ++ ':' :: r)) = (c :: cs) :: splitOnColon r
    simp only [splitOnColon, if_neg hc]
    rw [ih h2]

theorem from_parts_cons (n t : Str) (ts : List Str) :
    TypeName.from_parts n (t :: ts) =
      match TypeName.from_parts t ts with
      | none => none
      | some arg => some (TypeName.mk (.Owned n) [arg]) := rfl

theorem from_parts_isSome : ∀ (rest : List Str) (n : Str),
    (TypeName.from_parts n rest).isSome = true
  | [], _ => rfl
  | t :: ts, n => by
    have ih := from_parts_isSome ts t
    rw [from_parts_cons]
    cases hfp : TypeName.from_parts t ts with
    | none => rw [hfp] at ih; exact absurd ih (by simp)
    | some arg => rfl

theorem from_repr_cons (n s : Str) (h : ':' ∉ n) :
    TypeName.from_repr (n ++ ':' :: s) =
      (TypeName.from_repr s).map (fun u => TypeName.mk (.Owned n) [u]) := by
  simp only [TypeName.from_repr]
  rw [splitOnColon_append n s h]
  cases hsp : splitOnColon s with
  | nil => exact absurd hsp (splitOnColon_ne_nil s)
  | cons p ps =>
    show TypeName.from_parts n (p :: ps) =
      (TypeName.from_parts p ps).map (fun u => TypeName.mk (.Owned n) [u])
    rw [from_parts_cons]
    cases hfp : TypeName.from_parts p ps <;> rfl

theorem mangled_ref_layer (b : Bool) (t : TypeName) :
    (wrapLayer b t).mangled = t.mangled := by
  cases b <;> rfl

theorem mangled_wrap : ∀ (bs : List Bool) (t : TypeName),
    (wrapLayers bs t).mangled = t.mangled
  | [], _ => rfl
  | b :: bs, t => by rw [wrapLayers, mangled_ref_layer, mangled_wrap bs t]

theorem roundtrip_aux : ∀ (t : TypeName), t.linear = true → t.noColon = true →
    ∃ u, TypeName.from_repr t.repr = some u ∧ TypeName.eqTN u t = true
  | .mk n [], _, hc => by
    have hcn : ':' ∉ n.as_ref := by
      simp only [TypeName.noColon, Bool.and_eq_true, Bool.not_eq_true'] at hc
      simpa [List.contains] using hc.1
    refine ⟨TypeName.basic_owned n.as_ref, ?_, ?_⟩
    · show TypeName.from_repr n.as_ref = some (TypeName.basic_owned n.as_ref)
      rw [TypeName.from_repr, splitOnColon_no_colon _ hcn]
      rfl
    · simp [TypeName.eqTN, TypeName.eqArgs, TypeName.basic_owned, Ident.eq, Ident.as_ref]
  | .mk n [a], hl, hc => by
    have hla : a.linear = true := hl
    have hcn : ':' ∉ n.as_ref := by
      simp only [TypeName.noColon, Bool.and_eq_true, Bool.not_eq_true'] at hc
      simpa [List.contains] using hc.1
    have hca : a.noColon = true := by
      simp only [TypeName.noColon, TypeName.noColonArgs, Bool.and_eq_true] at hc
      exact hc.2.1
    obtain ⟨u, hu, hequ⟩ := roundtrip_aux a hla hca
    have hrepr : (TypeName.mk n [a]).repr = n.as_ref ++ ':' :: a.repr := by
      simp [TypeName.repr, TypeName.reprArgs, joinSep]
    refine ⟨TypeName.mk (.Owned n.as_ref) [u], ?_, ?_⟩
    · rw [hrepr, from_repr_cons _ _ hcn, hu]
      rfl
    · simp [TypeName.eqTN, TypeName.eqArgs, Ident.eq, Ident.as_ref, hequ]
  | .mk _ (_ :: _ :: _), hl, _ => by
    simp [TypeName.linear] at hl

theorem allEmpty_mem {es : List (Expr R C L F M T)} (h : Expr.allEmpty es = true) :
    ∀ e ∈ es, e.is_empty = true := by
  induction es with
  | nil => intro e he; cases he
  | cons x xs ih =>
    rw [Expr.allEmpty, Bool.and_eq_true] at h
    intro e he
    rcases List.mem_cons.mp he with rfl | hx
    · exact h.1
    · exact ih h.2 e hx

theorem allEmpty_intro {es : List (Expr R C L F M T)}
    (h : ∀ e ∈ es, e.is_empty = true) : Expr.allEmpty es = true := by
  induction es with
  | nil => rfl
  | cons x xs ih =>
    rw [Expr.allEmpty, Bool.and_eq_true]
    exact ⟨h x (List.mem_cons_self x xs), ih fun e he => h e (List.mem_cons_of_mem x he)⟩

theorem is_empty_iff (e : Expr R C L F M T) : e.is_empty = true ↔ IsNoOp e := by
  cases e
  case seq es =>
    simp only [Expr.is_empty]
    constructor
    · intro h
      exact IsNoOp.seq es fun x hx => (is_empty_iff x).mp (allEmpty_mem h x hx)
    · intro h
      cases h with
      | seq _ h2 => exact allEmpty_intro fun x hx => (is_empty_iff x).mpr (h2 x hx)
  case goto t s =>
    simp only [Expr.is_empty]
    constructor
    · intro h; exact IsNoOp.goto t s h
    · intro h; cases h with | goto _ _ h2 => exact h2
  all_goals
    exact ⟨fun h => by simp [Expr.is_empty] at h, fun h => by cases h⟩
termination_by sizeOf e
decreasing_by
  all_goals
    subst_vars
    simp only [Expr.seq.sizeOf_spec]
    have hlt := List.sizeOf_lt_of_mem hx
    omega

/-! Claim theorems. -/

/-- C1: `Ident` equality, hashing, and display depend only on the
string content, but the derived `Ord`/`PartialOrd` does NOT: the derived
comparison orders by variant discriminant first, so `Static("a")` and
`Owned("a")` compare as `Less` even though they are equal (and the
strings compare equal), and `Static("b")` vs `Owned("a")` compares as
`Less` even though the strings compare as `Greater`. This evaluates the
embedded code at those failing inputs. -/
theorem ident_derived_ord_ignores_content :
    Ident.eq (.Static "a".toList) (.Owned "a".toList) = true ∧
    Ident.hashInput (.Static "a".toList) = Ident.hashInput (.Owned "a".toList) ∧
    Ident.fmt (.Static "a".toList) = Ident.fmt (.Owned "a".toList) ∧
    cmpStr "a".toList "a".toList = Ordering.eq ∧
    Ident.cmp (.Static "a".toList) (.Owned "a".toList) = Ordering.lt ∧
    cmpStr "b".toList "a".toList = Ordering.gt ∧
    Ident.cmp (.Static "b".toList) (.Owned "a".toList) = Ordering.lt := by
  decide

/-- C2 counterexample: the claim says `associative()` is false for
every operator outside the listed seven, but the code returns true for
`Multiply`. -/
theorem binop_multiply_associative_cex :
    ¬ (BinOp.Multiply.associative = false) := by
  decide

/-- C2 (amended): `associative()` returns true exactly for logical
or/and, bitwise or/xor/and, add, subtract, AND multiply, and false for
every other operator. -/
theorem binop_associative_table :
    ∀ op : BinOp, op.associative = true ↔
      (op = .LogicOr ∨ op = .LogicAnd ∨ op = .Or ∨ op = .Xor ∨ op = .And ∨
        op = .Add ∨ op = .Subtract ∨ op = .Multiply) := by
  decide

/-- C3 counterexample: the claim says `from_repr` fails (rather than
returning a `TypeName`) on the empty string, but the code returns a
value: splitting `""` on `:` yields the single segment `""`, so neither
`unwrap` panics. -/
theorem from_repr_empty_returns_value_cex :
    (TypeName.from_repr "".toList).isSome = true := rfl

/-- C3 (amended): on the empty string `from_repr` does not fail; it
returns the basic `TypeName` whose name is the empty (owned) string. -/
theorem from_repr_empty_value :
    TypeName.from_repr "".toList = some (TypeName.basic_owned []) := rfl

/-- C4 counterexample: the claim says
`Subtract.does_associate(Subtract)` is false, but the code marks
`Subtract` associative, so with equal precedences the call returns
true. -/
theorem subtract_does_associate_subtract_cex :
    ¬ (BinOp.Subtract.does_associate BinOp.Subtract = false) := by
  decide

/-- C4 (amended): `Subtract.does_associate(Subtract)` returns true,
because `Subtract.associative()` is true in the code's table. -/
theorem subtract_does_associate_subtract_true :
    BinOp.Subtract.does_associate BinOp.Subtract = true := by
  decide

/-- C5: `does_associate(self, parent)` is true iff the parent has
strictly greater precedence, or equal precedence and the parent is
associative; in particular `Multiply.does_associate(Add)` is true. -/
theorem does_associate_precedence_spec :
    (∀ s p : BinOp, s.does_associate p = true ↔
      (p.precedence > s.precedence ∨
        (p.precedence = s.precedence ∧ p.associative = true))) ∧
    BinOp.Multiply.does_associate BinOp.Add = true := by
  decide

/-- C6 counterexample: the round-trip claim quantifies over every
`TypeName` with at most one argument per level, but a zero-argument
`TypeName` whose name contains `:` (here `"a:b"`) is reparsed as a
nested chain, not reconstructed equal to itself. -/
theorem repr_roundtrip_colon_cex :
    (TypeName.basic "a:b".toList).linear = true ∧
    (TypeName.from_repr (TypeName.basic "a:b".toList).repr).map
      (fun u => TypeName.eqTN u (TypeName.basic "a:b".toList)) = some false :=
  ⟨rfl, rfl⟩

/-- C6 (amended): for every `TypeName` with at most one type argument
at every level AND no `:` in any name, `from_repr ∘ repr` reconstructs
an equal (content-wise, per the derived `PartialEq`) `TypeName`; and the
two-argument `Map` over `Int32`, `String` has `repr` equal to
`"Map:Int32:String"`, which `from_repr` reparses as the single-argument
nesting `Map<Int32<String>>`. -/
theorem repr_roundtrip_linear :
    (∀ t : TypeName, t.linear = true → t.noColon = true →
      ∃ u, TypeName.from_repr t.repr = some u ∧ TypeName.eqTN u t = true) ∧
    TypeName.repr (TypeName.mk (.Static "Map".toList) [TypeName.INT32, TypeName.STRING]) =
      "Map:Int32:String".toList ∧
    TypeName.from_repr "Map:Int32:String".toList =
      some (TypeName.mk (.Owned "Map".toList)
        [TypeName.mk (.Owned "Int32".toList) [TypeName.mk (.Owned "String".toList) []]]) :=
  ⟨roundtrip_aux, rfl, rfl⟩

/-- C6 witness: the round-trip theorem applied to the concrete linear,
colon-free type `Int32`. -/
theorem repr_roundtrip_linear_witness :
    TypeName.INT32.linear = true ∧ TypeName.INT32.noColon = true ∧
    ∃ u, TypeName.from_repr TypeName.INT32.repr = some u ∧
      TypeName.eqTN u TypeName.INT32 = true :=
  ⟨rfl, rfl, repr_roundtrip_linear.1 TypeName.INT32 rfl rfl⟩

/-- C7: `mangled()` erases `ref`/`wref` wrapping: wrapping any type in
any stack of single-argument `ref`/`wref` layers leaves `mangled`
unchanged; in particular `new("ref", [INT32]).mangled() ==
INT32.mangled()`. -/
theorem mangled_erases_ref_wref :
    (∀ (bs : List Bool) (t : TypeName), (wrapLayers bs t).mangled = t.mangled) ∧
    (TypeName.mk (.Static "ref".toList) [TypeName.INT32]).mangled = TypeName.INT32.mangled :=
  ⟨mangled_wrap, rfl⟩

/-- C8: for every `NameKind` instantiation, `is_empty` holds exactly on
the structural no-ops (a `Seq` of recursive no-ops, or a `Goto` with a
resolved target); `Expr::EMPTY` is empty, a `Seq` holding a resolved
`Goto` is empty, and a `Seq` holding a `Break` is not. -/
theorem is_empty_characterization :
    (∀ (R C L F M T : Type) (e : Expr R C L F M T), e.is_empty = true ↔ IsNoOp e) ∧
    (Expr.EMPTY : SourceExpr).is_empty = true ∧
    (Expr.seq [Expr.goto (Target.mk 3 true) (Span.mk 0 0)] : SourceExpr).is_empty = true ∧
    (Expr.seq [Expr.brk (Span.mk 0 0)] : SourceExpr).is_empty = false :=
  ⟨fun _ _ _ _ _ _ e => is_empty_iff e, rfl, rfl, rfl⟩

/-- C9: `Span::merge` is commutative, associative, and idempotent, and
`Span::new(a,b).contains(p)` holds iff `a <= p < b`. -/
theorem span_merge_contains_props :
    (∀ a b : Span, a.merge b = b.merge a) ∧
    (∀ a b c : Span, (a.merge b).merge c = a.merge (b.merge c)) ∧
    (∀ a : Span, a.merge a = a) ∧
    (∀ a b p : Pos, (Span.mk a b).contains p = true ↔ a ≤ p ∧ p < b) := by
  refine ⟨fun a b => ?_, fun a b c => ?_, fun a => ?_, fun a b p => ?_⟩
  · cases a; cases b; simp [Span.merge, Nat.min_comm, Nat.max_comm]
  · cases a; cases b; cases c; simp [Span.merge, Nat.min_assoc, Nat.max_assoc]
  · cases a; simp [Span.merge]
  · simp [Span.contains, Bool.and_eq_true, decide_eq_true_eq]

/-- C10: `from_repr` is total — for every input string it produces a
`TypeName` without reaching either `unwrap` panic: splitting always
yields at least one segment, and `from_parts` succeeds on every segment
list. -/
theorem from_repr_total : ∀ s : Str, (TypeName.from_repr s).isSome = true := by
  intro s
  rw [TypeName.from_repr]
  cases hsp : splitOnColon s with
  | nil => exact absurd hsp (splitOnColon_ne_nil s)
  | cons n rest => exact from_parts_isSome rest n

end Redscript
